import Mathlib

/-!
Shallow embedding of `tiny-request-router` (src/router.ts) and proofs about
its route table, registration and matching algorithms.

Modelling decisions:
* HTTP methods are plain strings: the source compares `route.method` to the
  query method with `!==` (exact, case-sensitive string comparison), and an
  arbitrary (even unrecognized) method string can reach `match` at runtime.
* A compiled JavaScript `RegExp` is opaque to the router; it is modelled by
  its observable behaviour, a function `exec : String → Option (List (Option
  String))` returning `none` when the regexp does not match and otherwise the
  match array (index 0 the whole match, then one entry per capture group,
  `none` standing for JavaScript `undefined` on an unmatched optional group).
* The external `path-to-regexp` compiler is a black box per its contract:
  a function that either fails (a thrown error) or yields a compiled regexp
  together with its ordered key list.
* A JavaScript object used as a string map (`Params`) is an insertion-ordered
  association list; assignment updates an existing key in place, else appends.
* The JavaScript exception thrown during registration is modelled by explicit
  state passing: `_push` returns the (possibly unchanged) router paired with
  an optional error message.
-/

namespace TinyRouter

/-- One captured value of a regexp execution; `none` models JavaScript
`undefined` for an optional group that did not participate in the match. -/
abbrev Capture := Option String

/-- Observable behaviour of a compiled JavaScript `RegExp`: `exec` returns
`none` (JavaScript `null`) on failure, otherwise the match array. -/
structure RegExpM where
  exec : String → Option (List Capture)

/-- The slice of a `path-to-regexp` `Key` the router reads: `key.name`.
Numeric key names (unnamed capture groups) appear here as their JavaScript
string coercions "0", "1", .... -/
structure Key where
  name : String
  deriving DecidableEq

abbrev Keys := List Key

/-- A JavaScript object used as a string-to-string map, as an
insertion-ordered association list. -/
abbrev Params := List (String × String)

/-- JavaScript property assignment `obj[k] = v`: update an existing key in
place (keeping its position), otherwise append the new key at the end. -/
def setParam : Params → String → String → Params
  | [], k, v => [(k, v)]
  | (k₀, v₀) :: rest, k, v =>
    if k₀ = k then (k₀, v) :: rest else (k₀, v₀) :: setParam rest k v

/-- JavaScript property read `obj[k]`: `none` when the key is absent. -/
def getParam : Params → String → Option String
  | [], _ => none
  | (k₀, v₀) :: rest, k => if k₀ = k then some v₀ else getParam rest k

/-- Route options recognized by `path-to-regexp`; the router itself only ever
reads `end`. Each field is optional (JavaScript `undefined` when absent). -/
structure RouteOptions where
  sensitive : Option Bool := none
  strict : Option Bool := none
  «end» : Option Bool := none
  start : Option Bool := none
  delimiter : Option String := none
  endsWith : Option String := none
  encode : Option (String → String) := none

/-- The all-absent options object `{}`. -/
def RouteOptions.empty : RouteOptions := ⟨none, none, none, none, none, none, none⟩

/-- The `Route` record of src/router.ts. -/
structure Route (H : Type) where
  method : String
  path : String
  regexp : RegExpM
  options : RouteOptions
  keys : Keys
  handler : H

/-- The `RouteMatch` record: every field of the route (spread `...route`)
plus `params` and the optional raw `matches` array (absent on fast paths). -/
structure RouteMatch (H : Type) where
  method : String
  path : String
  regexp : RegExpM
  options : RouteOptions
  keys : Keys
  handler : H
  params : Params
  «matches» : Option (List Capture)

/-- Spread a route into a `RouteMatch`, adding `params` and `matches`. -/
def Route.toMatch (route : Route H) (params : Params)
    («matches» : Option (List Capture)) : RouteMatch H :=
  ⟨route.method, route.path, route.regexp, route.options, route.keys,
    route.handler, params, «matches»⟩

/-- Tail-recursive core of `keysToParams` from src/router.ts: the loop body
at step `i` reads `keys[i-1].name` and `matches[i]`, assigning
`params[key.name] = val` unless `val` is `undefined`. The first argument is
`matches[1..]`. In the source a missing key (more captures than keys) would
throw on `key.name`; `path-to-regexp` guarantees one key per capture group,
so that branch is unreachable and is modelled as ending the loop. -/
def keysToParamsAux : List Capture → Keys → Params → Params
  | [], _, params => params
  | _ :: _, [], params => params
  | none :: ms, _ :: ks, params => keysToParamsAux ms ks params
  | some v :: ms, k :: ks, params => keysToParamsAux ms ks (setParam params k.name v)

/-- The function `keysToParams(matches, keys)` of src/router.ts: pair capture
`i+1` with key `i`, skipping captured values that are `undefined`. -/
def keysToParams («matches» : List Capture) (keys : Keys) : Params :=
  keysToParamsAux «matches».tail keys []

/-- The `Router` class: its only state is the ordered list of routes. -/
structure Router (H : Type) where
  routes : List (Route H)

/-- The method filter shared by `match` and `matchAll` (negation of the
skip condition `route.method !== method && route.method !== 'ALL'`). -/
def methodMatches (route : Route H) (method : String) : Bool :=
  route.method == method || route.method == "ALL"

/-- The loop of `Router.match` over the route list, in registration order. -/
def matchList : List (Route H) → String → String → Option (RouteMatch H)
  | [], _, _ => none
  | route :: rest, method, path =>
    if methodMatches route method = false then matchList rest method path
    else if route.path = "(.*)" then
      some (route.toMatch [("0", route.path)] none)
    else if route.path = "/" ∧ route.options.«end» = some false then
      some (route.toMatch [] none)
    else
      match route.regexp.exec path with
      | none => matchList rest method path
      | some ms =>
        if ms.isEmpty then matchList rest method path
        else some (route.toMatch (keysToParams ms route.keys) (some ms))

/-- The method `Router.match(method, path)` of src/router.ts. -/
def Router.«match» (r : Router H) (method path : String) :
    Option (RouteMatch H) :=
  matchList r.routes method path

/-- The loop of `Router.matchAll` over the route list: same method filter and
general-case regexp matching, no fast paths, accumulating every match. -/
def matchAllList : List (Route H) → String → String → List (RouteMatch H)
  | [], _, _ => []
  | route :: rest, method, path =>
    if methodMatches route method = false then matchAllList rest method path
    else
      match route.regexp.exec path with
      | none => matchAllList rest method path
      | some ms =>
        if ms.isEmpty then matchAllList rest method path
        else route.toMatch (keysToParams ms route.keys) (some ms) ::
          matchAllList rest method path

/-- The method `Router.matchAll(method, path)` of src/router.ts. -/
def Router.matchAll (r : Router H) (method path : String) :
    List (RouteMatch H) :=
  matchAllList r.routes method path

/-- The external `pathToRegexp` collaborator as a black box: compilation of a
pattern and options either throws (modelled by `Except.error`) or produces a
compiled regexp and the ordered key list it filled in. -/
abbrev Compile := String → RouteOptions → Except String (RegExpM × Keys)

/-- The method `Router._push` of src/router.ts, parameterized by the external
compiler. A bare `'*'` is rewritten to `'(.*)'` before compilation and it is
the rewritten string that is stored in the route. The thrown compile error is
modelled by state passing: on error the returned router is the untouched
receiver and the message is carried in the second component. -/
def Router._push (r : Router H) (compile : Compile)
    (method path : String) (handler : H) (options : RouteOptions) :
    Router H × Option String :=
  let path₁ := if path = "*" then "(.*)" else path
  match compile path₁ options with
  | Except.error e => (r, some e)
  | Except.ok (regexp, keys) =>
    (⟨r.routes ++ [⟨method, path₁, regexp, options, keys, handler⟩]⟩, none)

/-- Registration helper `all`: route under the method wildcard `'ALL'`. -/
def Router.all (r : Router H) (compile : Compile) (path : String)
    (handler : H) (options : RouteOptions) : Router H × Option String :=
  r._push compile "ALL" path handler options

/-- Registration helper `get`. -/
def Router.get (r : Router H) (compile : Compile) (path : String)
    (handler : H) (options : RouteOptions) : Router H × Option String :=
  r._push compile "GET" path handler options

/-- Registration helper `post`. -/
def Router.post (r : Router H) (compile : Compile) (path : String)
    (handler : H) (options : RouteOptions) : Router H × Option String :=
  r._push compile "POST" path handler options

/-- Registration helper `put`. -/
def Router.put (r : Router H) (compile : Compile) (path : String)
    (handler : H) (options : RouteOptions) : Router H × Option String :=
  r._push compile "PUT" path handler options

/-- Registration helper `patch`. -/
def Router.patch (r : Router H) (compile : Compile) (path : String)
    (handler : H) (options : RouteOptions) : Router H × Option String :=
  r._push compile "PATCH" path handler options

/-- Registration helper `delete`. -/
def Router.delete (r : Router H) (compile : Compile) (path : String)
    (handler : H) (options : RouteOptions) : Router H × Option String :=
  r._push compile "DELETE" path handler options

/-- Registration helper `head`. -/
def Router.head (r : Router H) (compile : Compile) (path : String)
    (handler : H) (options : RouteOptions) : Router H × Option String :=
  r._push compile "HEAD" path handler options

/-- Registration helper `options`. -/
def Router.options (r : Router H) (compile : Compile) (path : String)
    (handler : H) (options : RouteOptions) : Router H × Option String :=
  r._push compile "OPTIONS" path handler options

/-! Specification-side characterizations of the matching loops. -/

/-- Specification predicate: the query satisfies the route for `match` —
method filter, then catch-all fast path, root fast path, or a successful
non-empty regexp execution. -/
def routeSatisfies (route : Route H) (method path : String) : Bool :=
  methodMatches route method &&
    (decide (route.path = "(.*)") ||
      decide (route.path = "/" ∧ route.options.«end» = some false) ||
      (match route.regexp.exec path with
       | none => false
       | some ms => !ms.isEmpty))

/-- Specification function: the `RouteMatch` that `match` builds for a
satisfying route (fast path A, fast path B, or the general case). -/
def buildMatch (route : Route H) (path : String) : RouteMatch H :=
  if route.path = "(.*)" then route.toMatch [("0", route.path)] none
  else if route.path = "/" ∧ route.options.«end» = some false then
    route.toMatch [] none
  else
    match route.regexp.exec path with
    | some ms => route.toMatch (keysToParams ms route.keys) (some ms)
    | none => route.toMatch [] none

/-- Specification predicate: the query satisfies the route for `matchAll` —
the method filter and the general case only, no fast paths. -/
def routeSatisfiesAll (route : Route H) (method path : String) : Bool :=
  methodMatches route method &&
    (match route.regexp.exec path with
     | none => false
     | some ms => !ms.isEmpty)

/-- Specification function: the `RouteMatch` that `matchAll` builds for a
satisfying route (always the general case). -/
def buildMatchAll (route : Route H) (path : String) : RouteMatch H :=
  match route.regexp.exec path with
  | some ms => route.toMatch (keysToParams ms route.keys) (some ms)
  | none => route.toMatch [] none

/-- A route satisfying the `matchAll` test also satisfies the `match` test. -/
theorem routeSatisfies_of_all (route : Route H) (method path : String)
    (h : routeSatisfiesAll route method path = true) :
    routeSatisfies route method path = true := by
  simp only [routeSatisfiesAll, Bool.and_eq_true] at h
  simp only [routeSatisfies, Bool.and_eq_true, Bool.or_eq_true]
  exact ⟨h.1, Or.inr h.2⟩

/-- The `match` loop returns the first satisfying route, built as the loop
body builds it. -/
theorem matchList_eq_find (l : List (Route H)) (method path : String) :
    matchList l method path =
      (l.find? (fun route => routeSatisfies route method path)).map
        (fun route => buildMatch route path) := by
  induction l with
  | nil => rfl
  | cons route rest ih =>
    by_cases hm : methodMatches route method = false
    · have hsat : routeSatisfies route method path = false := by
        simp [routeSatisfies, hm]
      rw [matchList, if_pos hm, List.find?_cons_of_neg _ (by simp [hsat]), ih]
    · have hm' : methodMatches route method = true := by
        revert hm; cases methodMatches route method <;> simp
      by_cases hw : route.path = "(.*)"
      · have hsat : routeSatisfies route method path = true := by
          simp [routeSatisfies, hm', hw]
        rw [matchList, if_neg hm, if_pos hw,
          List.find?_cons_of_pos _ (by simp [hsat])]
        simp [buildMatch, hw]
      · by_cases hr : route.path = "/" ∧ route.options.«end» = some false
        · have hsat : routeSatisfies route method path = true := by
            simp [routeSatisfies, hm', hr]
          rw [matchList, if_neg hm, if_neg hw, if_pos hr,
            List.find?_cons_of_pos _ (by simp [hsat])]
          simp [buildMatch, hw, hr]
        · rw [matchList, if_neg hm, if_neg hw, if_neg hr]
          cases hexec : route.regexp.exec path with
          | none =>
            have hsat : routeSatisfies route method path = false := by
              simp [routeSatisfies, hexec, hw, hr]
            show matchList rest method path = _
            rw [List.find?_cons_of_neg _ (by simp [hsat]), ih]
          | some ms =>
            show (if ms.isEmpty = true then matchList rest method path
              else some (route.toMatch (keysToParams ms route.keys) (some ms))) = _
            cases hemp : ms.isEmpty with
            | true =>
              have hsat : routeSatisfies route method path = false := by
                simp [routeSatisfies, hexec, hemp, hw, hr]
              rw [if_pos rfl, List.find?_cons_of_neg _ (by simp [hsat]), ih]
            | false =>
              have hsat : routeSatisfies route method path = true := by
                simp [routeSatisfies, hm', hexec, hemp]
              rw [if_neg (by simp), List.find?_cons_of_pos _ (by simp [hsat])]
              simp [buildMatch, hw, hr, hexec]

/-- The `matchAll` loop returns every satisfying route, in order, built as
the loop body builds it. -/
theorem matchAllList_eq_filter (l : List (Route H)) (method path : String) :
    matchAllList l method path =
      (l.filter (fun route => routeSatisfiesAll route method path)).map
        (fun route => buildMatchAll route path) := by
  induction l with
  | nil => rfl
  | cons route rest ih =>
    by_cases hm : methodMatches route method = false
    · have hsat : routeSatisfiesAll route method path = false := by
        simp [routeSatisfiesAll, hm]
      rw [matchAllList, if_pos hm, List.filter_cons_of_neg (by simp [hsat]), ih]
    · rw [matchAllList, if_neg hm]
      have hm' : methodMatches route method = true := by
        revert hm; cases methodMatches route method <;> simp
      cases hexec : route.regexp.exec path with
      | none =>
        have hsat : routeSatisfiesAll route method path = false := by
          simp [routeSatisfiesAll, hexec]
        show matchAllList rest method path = _
        rw [List.filter_cons_of_neg (by simp [hsat]), ih]
      | some ms =>
        show (if ms.isEmpty = true then matchAllList rest method path
          else route.toMatch (keysToParams ms route.keys) (some ms) ::
            matchAllList rest method path) = _
        cases hemp : ms.isEmpty with
        | true =>
          have hsat : routeSatisfiesAll route method path = false := by
            simp [routeSatisfiesAll, hexec, hemp]
          rw [if_pos rfl, List.filter_cons_of_neg (by simp [hsat]), ih]
        | false =>
          have hsat : routeSatisfiesAll route method path = true := by
            simp [routeSatisfiesAll, hm', hexec, hemp]
          rw [if_neg (by simp), List.filter_cons_of_pos (by simp [hsat]), ih]
          simp [buildMatchAll, hexec]

/-- A route that does not satisfy the query is skipped by the `match` loop. -/
theorem matchList_cons_of_not_sat (route : Route H) (rest : List (Route H))
    (method path : String) (h : routeSatisfies route method path = false) :
    matchList (route :: rest) method path = matchList rest method path := by
  rw [matchList_eq_find, matchList_eq_find, List.find?_cons_of_neg _ (by simp [h])]

/-- A whole prefix of unsatisfying routes is skipped by the `match` loop. -/
theorem matchList_append_of_none (pre l : List (Route H)) (method path : String)
    (h : ∀ rt ∈ pre, routeSatisfies rt method path = false) :
    matchList (pre ++ l) method path = matchList l method path := by
  induction pre with
  | nil => rfl
  | cons rt pre ih =>
    rw [List.cons_append,
      matchList_cons_of_not_sat rt _ method path (h rt (List.mem_cons_self rt pre)),
      ih (fun x hx => h x (List.mem_cons_of_mem rt hx))]

/-- Spreading a route preserves its `method` field. -/
theorem toMatch_method (route : Route H) (params : Params)
    (m : Option (List Capture)) : (route.toMatch params m).method = route.method :=
  rfl

/-- The `RouteMatch` built by the `match` loop carries the route's method. -/
theorem buildMatch_method (route : Route H) (path : String) :
    (buildMatch route path).method = route.method := by
  unfold buildMatch
  by_cases h1 : route.path = "(.*)"
  · rw [if_pos h1]; rfl
  · rw [if_neg h1]
    by_cases h2 : route.path = "/" ∧ route.options.«end» = some false
    · rw [if_pos h2]; rfl
    · rw [if_neg h2]; cases route.regexp.exec path <;> rfl


/-- The `RouteMatch` built by the `matchAll` loop carries the route's
method. -/
theorem buildMatchAll_method (route : Route H) (path : String) :
    (buildMatchAll route path).method = route.method := by
  unfold buildMatchAll
  cases route.regexp.exec path <;> rfl

/-- Unfolding the method filter into the two ways it can pass. -/
theorem methodMatches_iff (route : Route H) (method : String) :
    methodMatches route method = true ↔
      route.method = method ∨ route.method = "ALL" := by
  simp [methodMatches]

/-! Lemmas on the JavaScript-object model of `params`. -/

/-- Reading back the key just assigned yields the assigned value. -/
theorem getParam_setParam_self (params : Params) (k v : String) :
    getParam (setParam params k v) k = some v := by
  induction params with
  | nil => simp [setParam, getParam]
  | cons hd tl ih =>
    obtain ⟨k₀, v₀⟩ := hd
    by_cases h : k₀ = k
    · simp [setParam, getParam, h]
    · simp [setParam, getParam, h, ih]

/-- Assignment to one key leaves reads of any other key unchanged. -/
theorem getParam_setParam_ne (params : Params) (k v k₁ : String) (h : k₁ ≠ k) :
    getParam (setParam params k v) k₁ = getParam params k₁ := by
  induction params with
  | nil => simp [setParam, getParam, Ne.symm h]
  | cons hd tl ih =>
    obtain ⟨k₀, v₀⟩ := hd
    by_cases h₀ : k₀ = k
    · subst h₀
      simp [setParam, getParam, Ne.symm h]
    · simp only [setParam, if_neg h₀, getParam]
      by_cases h₁ : k₀ = k₁
      · simp [h₁]
      · simp [h₁, ih]

/-- A name not among the remaining keys is never assigned by the
parameter-building loop. -/
theorem keysToParamsAux_getParam_notmem (ms : List Capture) (ks : Keys)
    (params : Params) (name : String) (h : name ∉ ks.map Key.name) :
    getParam (keysToParamsAux ms ks params) name = getParam params name := by
  induction ms generalizing ks params with
  | nil => rfl
  | cons m ms ih =>
    cases ks with
    | nil => cases m <;> rfl
    | cons k ks =>
      have hname : name ∉ ks.map Key.name := by
        simp only [List.map_cons, List.mem_cons] at h
        exact fun hh => h (Or.inr hh)
      have hkname : k.name ≠ name := by
        simp only [List.map_cons, List.mem_cons] at h
        exact fun hh => h (Or.inl hh.symm)
      cases m with
      | none => exact ih ks params hname
      | some v =>
        exact (ih ks (setParam params k.name v) hname).trans
          (getParam_setParam_ne params k.name v name (Ne.symm hkname))

/-- Position-wise lookup through the parameter-building loop: with distinct
key names and an accumulator not yet defining key `i`, the final value at key
`i`'s name is capture `i` of the remaining captures — absent when that
capture is `undefined` or beyond the end of the capture list. -/
theorem keysToParamsAux_getParam (ms : List Capture) (ks : Keys)
    (params : Params) (hnd : (ks.map Key.name).Nodup) (i : Nat)
    (hi : i < ks.length)
    (hnone : getParam params (ks.get ⟨i, hi⟩).name = none) :
    getParam (keysToParamsAux ms ks params) (ks.get ⟨i, hi⟩).name =
      (ms.get? i).bind id := by
  induction ms generalizing ks params i with
  | nil =>
    exact hnone
  | cons m ms ih =>
    cases ks with
    | nil => exact absurd hi (Nat.not_lt_zero i)
    | cons k ks =>
      have hk : k.name ∉ ks.map Key.name := by
        simp only [List.map_cons, List.nodup_cons] at hnd
        exact hnd.1
      have hnd' : (ks.map Key.name).Nodup := by
        simp only [List.map_cons, List.nodup_cons] at hnd
        exact hnd.2
      cases i with
      | zero =>
        cases m with
        | none =>
          exact (keysToParamsAux_getParam_notmem ms ks params k.name hk).trans hnone
        | some v =>
          exact (keysToParamsAux_getParam_notmem ms ks _ k.name hk).trans
            (getParam_setParam_self params k.name v)
      | succ j =>
        have hj : j < ks.length := Nat.lt_of_succ_lt_succ hi
        cases m with
        | none => exact ih ks params hnd' j hj hnone
        | some v =>
          have hne : (ks.get ⟨j, hj⟩).name ≠ k.name := by
            intro hh
            exact hk (hh ▸ List.mem_map_of_mem Key.name (List.get_mem ks j hj))
          exact ih ks _ hnd' j hj
            ((getParam_setParam_ne params k.name v _ hne).trans hnone)

/-! Claim theorems. -/

/-- C1: for every router state and every (method, path) query, `match`
returns the first route in registration order whose method and path satisfy
the request (with its extracted parameters), or the absence value `none` when
no route does; in particular, when a route satisfies the query, the result is
produced by that route or one registered before it, so of two overlapping
routes the one registered first always wins. -/
theorem match_returns_first_satisfying_route (r : Router H)
    (method path : String) :
    (r.«match» method path =
      (r.routes.find? (fun route => routeSatisfies route method path)).map
        (fun route => buildMatch route path)) ∧
    (∀ (pre post : List (Route H)) (route : Route H),
      r.routes = pre ++ route :: post →
      routeSatisfies route method path = true →
      ∃ route₁, route₁ ∈ pre ++ [route] ∧
        r.«match» method path = some (buildMatch route₁ path)) := by
  have hchar : r.«match» method path =
      (r.routes.find? (fun route => routeSatisfies route method path)).map
        (fun route => buildMatch route path) :=
    matchList_eq_find r.routes method path
  refine ⟨hchar, ?_⟩
  intro pre post route hsplit hsat
  cases hfind : pre.find? (fun route => routeSatisfies route method path) with
  | some rfound =>
    refine ⟨rfound, List.mem_append_left _ (List.mem_of_find?_eq_some hfind), ?_⟩
    rw [hchar, hsplit, List.find?_append, hfind]
    rfl
  | none =>
    refine ⟨route, List.mem_append_right _ (List.mem_singleton.mpr rfl), ?_⟩
    rw [hchar, hsplit, List.find?_append, hfind, Option.none_or,
      List.find?_cons_of_pos _ (by simpa using hsat)]
    rfl

/-- C2: when the `match` scan reaches a route stored with the universal
wildcard path `(.*)` (as produced by registering `*`) whose method passes the
filter, it succeeds immediately with the single synthetic parameter `"0"`
bound to the route's own path string, with no raw match array and no path
testing — for any request path whatsoever. -/
theorem wildcard_fast_path (r : Router H) (pre post : List (Route H))
    (route : Route H) (method path : String)
    (hsplit : r.routes = pre ++ route :: post)
    (hpre : ∀ rt ∈ pre, routeSatisfies rt method path = false)
    (hwild : route.path = "(.*)")
    (hm : methodMatches route method = true) :
    r.«match» method path = some (route.toMatch [("0", route.path)] none) := by
  show matchList r.routes method path = _
  rw [hsplit, matchList_append_of_none pre _ method path hpre, matchList,
    if_neg (by simp [hm]), if_pos hwild]

/-- C9: when the `match` scan reaches a route whose path is exactly the root
`/` and whose options have `end` explicitly `false`, and the method filter
passes, it succeeds immediately with an empty parameter mapping and no raw
match array, for every request path — even one its regexp would reject. -/
theorem root_fast_path (r : Router H) (pre post : List (Route H))
    (route : Route H) (method path : String)
    (hsplit : r.routes = pre ++ route :: post)
    (hpre : ∀ rt ∈ pre, routeSatisfies rt method path = false)
    (hroot : route.path = "/")
    (hend : route.options.«end» = some false)
    (hm : methodMatches route method = true) :
    r.«match» method path = some (route.toMatch [] none) := by
  show matchList r.routes method path = _
  have hnw : ¬route.path = "(.*)" := by rw [hroot]; decide
  rw [hsplit, matchList_append_of_none pre _ method path hpre, matchList,
    if_neg (by simp [hm]), if_neg hnw, if_pos ⟨hroot, hend⟩]

/-- C3: `matchAll` applies the same method filter and general-case regexp
matching as `match` but without the fast-path shortcuts, and returns every
satisfying route in registration order (the empty list when none satisfies),
whereas `match` returns only the first route satisfying its test. -/
theorem matchAll_returns_every_satisfying_route (r : Router H)
    (method path : String) :
    (r.matchAll method path =
      (r.routes.filter (fun route => routeSatisfiesAll route method path)).map
        (fun route => buildMatchAll route path)) ∧
    (∀ rm, r.«match» method path = some rm →
      ∃ route, r.routes.find? (fun route => routeSatisfies route method path) =
        some route ∧ rm = buildMatch route path) := by
  refine ⟨matchAllList_eq_filter r.routes method path, ?_⟩
  intro rm hrm
  rw [show r.«match» method path = _ from matchList_eq_find r.routes method path]
    at hrm
  cases hfind : r.routes.find? (fun route => routeSatisfies route method path) with
  | none => rw [hfind, Option.map_none'] at hrm; cases hrm
  | some route =>
    rw [hfind, Option.map_some'] at hrm
    exact ⟨route, rfl, (Option.some.inj hrm).symm⟩

/-- C6: matching is total — when no route satisfies the query, `match`
returns the absence value `none` and `matchAll` the empty list; no error
value exists in either result type. -/
theorem no_match_returns_absence (r : Router H) (method path : String)
    (h : ∀ route ∈ r.routes, routeSatisfies route method path = false) :
    r.«match» method path = none ∧ r.matchAll method path = [] := by
  constructor
  · rw [show r.«match» method path = _ from matchList_eq_find r.routes method path,
      List.find?_eq_none.mpr (fun x hx => by simp [h x hx]), Option.map_none']
  · rw [show r.matchAll method path = _ from
      matchAllList_eq_filter r.routes method path,
      List.filter_eq_nil_iff.mpr (fun x hx hall =>
        absurd (routeSatisfies_of_all x method path hall) (by simp [h x hx])),
      List.map_nil]

/-- C7: both loops skip a route unless its method equals the query method
exactly or is the wildcard "ALL"; an "ALL" route passes the filter for every
query method, and every returned result's method is the query method or
"ALL" — so an unrecognized query method can only ever match "ALL" routes. -/
theorem method_filter_governs_matching (route : Route H)
    (rest : List (Route H)) (r : Router H) (method path : String) :
    (route.method ≠ method → route.method ≠ "ALL" →
      matchList (route :: rest) method path = matchList rest method path ∧
      matchAllList (route :: rest) method path = matchAllList rest method path) ∧
    (route.method = "ALL" → methodMatches route method = true) ∧
    (∀ rm ∈ r.matchAll method path, rm.method = method ∨ rm.method = "ALL") ∧
    (∀ rm, r.«match» method path = some rm →
      rm.method = method ∨ rm.method = "ALL") := by
  refine ⟨?_, ?_, ?_, ?_⟩
  · intro h1 h2
    have hm : methodMatches route method = false := by
      simp [methodMatches, h1, h2]
    exact ⟨by rw [matchList, if_pos hm], by rw [matchAllList, if_pos hm]⟩
  · intro h
    simp [methodMatches, h]
  · intro rm hrm
    rw [show r.matchAll method path = _ from
      matchAllList_eq_filter r.routes method path] at hrm
    obtain ⟨route₁, hmem, hb⟩ := List.mem_map.mp hrm
    have hsat := (List.mem_filter.mp hmem).2
    have hmm : methodMatches route₁ method = true := by
      simp only [routeSatisfiesAll, Bool.and_eq_true] at hsat
      exact hsat.1
    subst hb
    simp only [buildMatchAll_method]
    exact (methodMatches_iff route₁ method).mp hmm
  · intro rm hrm
    rw [show r.«match» method path = _ from
      matchList_eq_find r.routes method path] at hrm
    cases hfind : r.routes.find? (fun route => routeSatisfies route method path) with
    | none => rw [hfind, Option.map_none'] at hrm; cases hrm
    | some route₁ =>
      rw [hfind, Option.map_some'] at hrm
      have hsat := List.find?_some hfind
      have hmm : methodMatches route₁ method = true := by
        simp only [routeSatisfies, Bool.and_eq_true] at hsat
        exact hsat.1
      obtain rfl := (Option.some.inj hrm).symm
      simp only [buildMatch_method]
      exact (methodMatches_iff route₁ method).mp hmm

/-- C4: the params mapping pairs capture at position i+1 with key i,
omitting every key whose captured value is undefined or beyond the end of
the capture list — so an optional trailing group's key is absent when the
path does not supply it and present when it does — and binds no name outside
the key list. -/
theorem keysToParams_pairs_captures_with_keys («matches» : List Capture)
    (keys : Keys) (hnd : (keys.map Key.name).Nodup) :
    (∀ i (hi : i < keys.length),
      getParam (keysToParams «matches» keys) (keys.get ⟨i, hi⟩).name =
        («matches».get? (i + 1)).bind id) ∧
    (∀ name, name ∉ keys.map Key.name →
      getParam (keysToParams «matches» keys) name = none) := by
  constructor
  · intro i hi
    have h := keysToParamsAux_getParam «matches».tail keys [] hnd i hi rfl
    rw [show keysToParams «matches» keys = keysToParamsAux «matches».tail keys []
      from rfl, h]
    cases «matches» with
    | nil => rfl
    | cons m ms => rfl
  · intro name h
    exact keysToParamsAux_getParam_notmem «matches».tail keys [] name h

/-- C5: registration is atomic — when pattern compilation throws, the error
propagates to the caller and the router (its routes table) is returned
untouched; when it succeeds, exactly one route is appended to the table and
the chainable router is returned with no error. -/
theorem push_is_atomic (compile : Compile) (r : Router H) (method path : String)
    (handler : H) (options : RouteOptions) :
    (∀ e, compile (if path = "*" then "(.*)" else path) options =
        Except.error e →
      r._push compile method path handler options = (r, some e)) ∧
    (∀ regexp keys,
      compile (if path = "*" then "(.*)" else path) options =
        Except.ok (regexp, keys) →
      r._push compile method path handler options =
        (⟨r.routes ++ [⟨method, if path = "*" then "(.*)" else path, regexp,
          options, keys, handler⟩]⟩, none)) := by
  constructor
  · intro e he
    simp only [Router._push, he]
  · intro regexp keys hk
    simp only [Router._push, hk]

/-- C8 (amended): the stored `path` field of every route appended by a
registration call is the pattern string exactly as passed, except that a
bare `*` is stored as its rewritten form `(.*)`. -/
theorem push_stores_normalized_path (compile : Compile) (r : Router H)
    (method path : String) (handler : H) (options : RouteOptions)
    (regexp : RegExpM) (keys : Keys)
    (hk : compile (if path = "*" then "(.*)" else path) options =
      Except.ok (regexp, keys)) :
    (r._push compile method path handler options).1.routes.map Route.path =
      r.routes.map Route.path ++ [if path = "*" then "(.*)" else path] := by
  simp only [Router._push, hk]
  simp

/-- C10: for a route stored with the wildcard path `(.*)`, `matchAll` —
unlike `match` — executes the compiled regexp against the request path and
returns the extracted parameters together with the raw match array, while
`match` reports the synthetic mapping `"0" ↦ route.path` with no match
array; whenever the extracted parameters differ from that synthetic mapping
the two results differ in their `params` field. -/
theorem matchAll_runs_regexp_on_wildcard (route : Route H)
    (method path : String) (hwild : route.path = "(.*)")
    (hm : methodMatches route method = true) (ms : List Capture)
    (hexec : route.regexp.exec path = some ms) (hne : ms.isEmpty = false) :
    (Router.matchAll ⟨[route]⟩ method path =
      [route.toMatch (keysToParams ms route.keys) (some ms)]) ∧
    (Router.«match» ⟨[route]⟩ method path =
      some (route.toMatch [("0", route.path)] none)) ∧
    (keysToParams ms route.keys ≠ [("0", route.path)] →
      (Router.matchAll ⟨[route]⟩ method path).head?.map RouteMatch.params ≠
        (Router.«match» ⟨[route]⟩ method path).map RouteMatch.params) := by
  have h1 : Router.matchAll ⟨[route]⟩ method path =
      [route.toMatch (keysToParams ms route.keys) (some ms)] := by
    show matchAllList [route] method path = _
    rw [matchAllList_eq_filter,
      List.filter_cons_of_pos (by simp [routeSatisfiesAll, hm, hexec, hne])]
    simp [buildMatchAll, hexec]
  have h2 : Router.«match» ⟨[route]⟩ method path =
      some (route.toMatch [("0", route.path)] none) := by
    show matchList [route] method path = _
    rw [matchList, if_neg (by simp [hm]), if_pos hwild]
  refine ⟨h1, h2, ?_⟩
  intro hdiff hcontra
  rw [h1, h2] at hcontra
  apply hdiff
  simpa [Route.toMatch] using hcontra

/-! Concrete fixtures for the witness and counterexample theorems. -/

/-- A compiled-regexp stand-in matching exactly "/foo", no capture group. -/
def regexFoo : RegExpM :=
  ⟨fun p => if p = "/foo" then some [some "/foo"] else none⟩

/-- A compiled-regexp stand-in rejecting every path. -/
def regexNever : RegExpM := ⟨fun _ => none⟩

/-- A compiled-regexp stand-in behaving like the compiled `(.*)`: the whole
match plus one capture group holding the entire path. -/
def regexAny : RegExpM := ⟨fun p => some [some p, some p]⟩

/-- GET /foo with handler "A". -/
def routeFooA : Route String := ⟨"GET", "/foo", regexFoo, RouteOptions.empty, [], "A"⟩

/-- GET /foo with handler "B". -/
def routeFooB : Route String := ⟨"GET", "/foo", regexFoo, RouteOptions.empty, [], "B"⟩

/-- GET /foo with handler "C". -/
def routeFooC : Route String := ⟨"GET", "/foo", regexFoo, RouteOptions.empty, [], "C"⟩

/-- A HEAD route registered as `*` (stored path `(.*)`), with a regexp that
rejects everything — the fast path must never consult it. -/
def routeWild : Route String :=
  ⟨"HEAD", "(.*)", regexNever, RouteOptions.empty, [⟨"0"⟩], "h1"⟩

/-- A HEAD route registered as `*` (stored path `(.*)`), with the realistic
compiled wildcard regexp. -/
def routeWildExec : Route String :=
  ⟨"HEAD", "(.*)", regexAny, RouteOptions.empty, [⟨"0"⟩], "h1"⟩

/-- A root route with `end: false` and a regexp that rejects everything —
the fast path must never consult it. -/
def routeRoot : Route String :=
  ⟨"GET", "/", regexNever, ⟨none, none, some false, none, none, none, none⟩,
    [], "hr"⟩

/-- An ALL-method route. -/
def routeAllSecret : Route String :=
  ⟨"ALL", "/secret", regexNever, RouteOptions.empty, [], "hs"⟩

/-- A compiler stand-in that always throws. -/
def compileFail : Compile := fun _ _ => Except.error "unbalanced pattern"

/-- A compiler stand-in that always succeeds with a trivial regexp. -/
def compileTriv : Compile := fun _ _ => Except.ok (⟨fun _ => none⟩, [])

/-- Witness for C1: of two identical GET /foo routes the first (handler "A")
wins. -/
theorem match_returns_first_satisfying_route_witness :
    (∃ route₁, route₁ ∈ ([] : List (Route String)) ++ [routeFooA] ∧
      Router.«match» ⟨[routeFooA, routeFooB]⟩ "GET" "/foo" =
        some (buildMatch route₁ "/foo")) ∧
    (buildMatch routeFooA "/foo").handler = "A" :=
  ⟨(match_returns_first_satisfying_route ⟨[routeFooA, routeFooB]⟩ "GET"
      "/foo").2 [] [routeFooB] routeFooA rfl (by decide), rfl⟩

/-- Witness for C2: the HEAD `*` route matches an arbitrary path with params
binding "0" to the stored path `(.*)`, although its regexp rejects
everything. -/
theorem wildcard_fast_path_witness :
    Router.«match» ⟨[routeWild]⟩ "HEAD" "/anything/at/all" =
      some (routeWild.toMatch [("0", "(.*)")] none) :=
  (wildcard_fast_path ⟨[routeWild]⟩ [] [] routeWild "HEAD" "/anything/at/all"
    rfl (fun rt hrt => absurd hrt (List.not_mem_nil rt)) rfl (by decide)).trans
    rfl

/-- Witness for C9: the root route with `end: false` matches a path its
regexp would reject, with empty params. -/
theorem root_fast_path_witness :
    Router.«match» ⟨[routeRoot]⟩ "GET" "/definitely/not/root" =
      some (routeRoot.toMatch [] none) :=
  root_fast_path ⟨[routeRoot]⟩ [] [] routeRoot "GET" "/definitely/not/root"
    rfl (fun rt hrt => absurd hrt (List.not_mem_nil rt)) rfl rfl (by decide)

/-- Witness for C3: three overlapping GET routes all appear, in registration
order, in the `matchAll` result, while `match` produces the first. -/
theorem matchAll_returns_every_satisfying_route_witness :
    Router.matchAll ⟨[routeFooA, routeFooB, routeFooC]⟩ "GET" "/foo" =
      [buildMatchAll routeFooA "/foo", buildMatchAll routeFooB "/foo",
        buildMatchAll routeFooC "/foo"] ∧
    (∃ route,
      List.find? (fun rt => routeSatisfies rt "GET" "/foo")
        (Router.routes ⟨[routeFooA, routeFooB, routeFooC]⟩) = some route ∧
      buildMatch routeFooA "/foo" = buildMatch route "/foo") :=
  ⟨(matchAll_returns_every_satisfying_route ⟨[routeFooA, routeFooB, routeFooC]⟩
      "GET" "/foo").1.trans rfl,
   (matchAll_returns_every_satisfying_route ⟨[routeFooA, routeFooB, routeFooC]⟩
      "GET" "/foo").2 (buildMatch routeFooA "/foo") rfl⟩

/-- Witness for C4: named keys "name" and "age" with an undefined trailing
capture: "name" is bound, "age" omitted; with the capture supplied, "age" is
bound. -/
theorem keysToParams_pairs_captures_with_keys_witness :
    getParam (keysToParams [some "/bob", some "bob", none]
      [⟨"name"⟩, ⟨"age"⟩]) "name" = some "bob" ∧
    getParam (keysToParams [some "/bob", some "bob", none]
      [⟨"name"⟩, ⟨"age"⟩]) "age" = none ∧
    getParam (keysToParams [some "/bob/22", some "bob", some "22"]
      [⟨"name"⟩, ⟨"age"⟩]) "age" = some "22" :=
  ⟨((keysToParams_pairs_captures_with_keys [some "/bob", some "bob", none]
      [⟨"name"⟩, ⟨"age"⟩] (by decide)).1 0 (by decide)).trans rfl,
   ((keysToParams_pairs_captures_with_keys [some "/bob", some "bob", none]
      [⟨"name"⟩, ⟨"age"⟩] (by decide)).1 1 (by decide)).trans rfl,
   ((keysToParams_pairs_captures_with_keys [some "/bob/22", some "bob", some "22"]
      [⟨"name"⟩, ⟨"age"⟩] (by decide)).1 1 (by decide)).trans rfl⟩

/-- Witness for C5: a throwing compiler leaves the empty router unchanged
with the error propagated; a succeeding compiler appends exactly the one new
route. -/
theorem push_is_atomic_witness :
    (Router._push ⟨([] : List (Route String))⟩ compileFail "GET" "/[invalid"
      "h" RouteOptions.empty = (⟨[]⟩, some "unbalanced pattern")) ∧
    (Router._push ⟨([] : List (Route String))⟩ compileTriv "GET" "/ok" "h"
      RouteOptions.empty =
      (⟨[⟨"GET", "/ok", ⟨fun _ => none⟩, RouteOptions.empty, [], "h"⟩]⟩, none)) :=
  ⟨(push_is_atomic compileFail ⟨[]⟩ "GET" "/[invalid" "h"
      RouteOptions.empty).1 "unbalanced pattern" rfl,
   ((push_is_atomic compileTriv ⟨[]⟩ "GET" "/ok" "h"
      RouteOptions.empty).2 ⟨fun _ => none⟩ [] rfl).trans rfl⟩

/-- Witness for C6: a GET /foo router matched against an unknown path yields
the absence value and the empty list. -/
theorem no_match_returns_absence_witness :
    Router.«match» ⟨[routeFooA]⟩ "GET" "/nope" = none ∧
    Router.matchAll ⟨[routeFooA]⟩ "GET" "/nope" = [] :=
  no_match_returns_absence ⟨[routeFooA]⟩ "GET" "/nope" (fun route h => by
    rw [List.mem_singleton.mp h]
    decide)

/-- Witness for C7: a GET route is skipped by both loops for a POST query,
and an ALL route passes the filter for a method equal to none of the fixed
methods. -/
theorem method_filter_governs_matching_witness :
    (matchList [routeFooA] "POST" "/foo" =
        matchList ([] : List (Route String)) "POST" "/foo" ∧
      matchAllList [routeFooA] "POST" "/foo" =
        matchAllList ([] : List (Route String)) "POST" "/foo") ∧
    methodMatches routeAllSecret "UNRECOGNIZED" = true :=
  ⟨(method_filter_governs_matching routeFooA [] ⟨[routeFooA]⟩ "POST"
      "/foo").1 (by decide) (by decide),
   (method_filter_governs_matching routeAllSecret [] ⟨[routeAllSecret]⟩
      "UNRECOGNIZED" "/foo").2.1 rfl⟩

/-- Counterexample for C8 as frozen: registering the pattern `*` stores the
path `(.*)`, not the string the caller passed. -/
theorem stored_path_not_verbatim_counterexample :
    (Router._push ⟨([] : List (Route String))⟩ compileTriv "HEAD" "*" "h"
      RouteOptions.empty).1.routes.map Route.path = ["(.*)"] ∧
    "(.*)" ≠ "*" :=
  ⟨rfl, by decide⟩

/-- Witness for the amended C8: a non-`*` pattern is stored verbatim. -/
theorem push_stores_normalized_path_witness :
    (Router._push ⟨([] : List (Route String))⟩ compileTriv "GET" "/foo" "h"
      RouteOptions.empty).1.routes.map Route.path = ["/foo"] :=
  (push_stores_normalized_path compileTriv ⟨[]⟩ "GET" "/foo" "h"
    RouteOptions.empty ⟨fun _ => none⟩ [] rfl).trans rfl

/-- Witness for C10: on the wildcard route, `matchAll` extracts "0" ↦ "/foo"
from the request path with the raw match array present, while `match`
reports "0" ↦ "(.*)" with no match array — the two results differ. -/
theorem matchAll_runs_regexp_on_wildcard_witness :
    Router.matchAll ⟨[routeWildExec]⟩ "HEAD" "/foo" =
      [routeWildExec.toMatch [("0", "/foo")] (some [some "/foo", some "/foo"])] ∧
    Router.«match» ⟨[routeWildExec]⟩ "HEAD" "/foo" =
      some (routeWildExec.toMatch [("0", "(.*)")] none) ∧
    (Router.matchAll ⟨[routeWildExec]⟩ "HEAD" "/foo").head?.map
        RouteMatch.params ≠
      (Router.«match» ⟨[routeWildExec]⟩ "HEAD" "/foo").map RouteMatch.params := by
  have h := matchAll_runs_regexp_on_wildcard routeWildExec "HEAD" "/foo" rfl
    (by decide) [some "/foo", some "/foo"] rfl (by decide)
  exact ⟨h.1.trans rfl, h.2.1.trans rfl, h.2.2 (by decide)⟩

end TinyRouter
